import Mathlib

/-!
Verification of the shift-rotation engine in `src/kulka.py`.

The program computes 14-day alternating Day/Night shift assignments for a
fixed roster of employees, attributes off-days to the shift of the nearest
earlier working day in the same month, aggregates monthly Day/Night unit
counts, and builds a per-employee monthly calendar of labelled day records.

The embedding below models Python's `datetime.date` with a proleptic
Gregorian (year, month, day) triple, the day ordinal (`datetime.date.toordinal`,
with 0001-01-01 having ordinal 1), and `date.weekday()` (Monday = 0).
Python's `//` on ints is floor division (`Int.fdiv`) and `%` is floor
modulus (`Int.fmod`); dictionary lookups that can raise `KeyError` are
modelled with `Option`.
-/

namespace Kulka

/-- A calendar date, as Python's `datetime.date(year, month, day)`. -/
structure Date where
  year : Nat
  month : Nat
  day : Nat
deriving DecidableEq, Repr

/-- One entry of `raw_custom` (src/kulka.py lines 9-13): a rotation threshold
date together with the shift active in the 14-day period starting there. -/
structure Anchor where
  threshold : Date
  start_shift : String
deriving DecidableEq, Repr

/-- One entry of the `employees` table (src/kulka.py lines 15-21). -/
structure Employee where
  name : String
  shift_type : String
  week_offs : List String
deriving DecidableEq, Repr

/-- A row of the calendar DataFrame built by `get_employee_calendar`
(src/kulka.py line 155): formatted date, weekday name, and shift label. -/
structure DayRecord where
  date : String
  weekday : String
  shift : String
deriving DecidableEq, Repr

/-- The dictionary `raw_custom` (src/kulka.py lines 9-13); `none` models a `KeyError`. -/
def raw_custom : String → Option Anchor
  | "Sundar" => some ⟨⟨2025, 5, 28⟩, "Night"⟩
  | "Samyugtha" => some ⟨⟨2025, 5, 28⟩, "Day"⟩
  | "Jalapathy" => some ⟨⟨2025, 5, 31⟩, "Day"⟩
  | _ => none

/-- The fixed roster `employees` (src/kulka.py lines 15-21). -/
def employees : List Employee :=
  [⟨"Periyasamy", "Day Shift Only", ["Tuesday", "Wednesday"]⟩,
   ⟨"Sundar", "Day/Night Shift", ["Monday", "Tuesday"]⟩,
   ⟨"Jalapathy", "Day/Night Shift", ["Thursday", "Friday"]⟩,
   ⟨"Samyugtha", "Day/Night Shift", ["Monday", "Tuesday"]⟩,
   ⟨"Durgeshini", "Day Shift Only", ["Friday"]⟩]

/-- The dictionary `day_map` (src/kulka.py lines 23-26); `none` models a `KeyError`. -/
def day_map : String → Option Nat
  | "Monday" => some 0
  | "Tuesday" => some 1
  | "Wednesday" => some 2
  | "Thursday" => some 3
  | "Friday" => some 4
  | "Saturday" => some 5
  | "Sunday" => some 6
  | _ => none

/-- Python's `calendar.day_name[wd]` (src/kulka.py line 138). -/
def day_name (wd : Nat) : String :=
  match wd with
  | 0 => "Monday"
  | 1 => "Tuesday"
  | 2 => "Wednesday"
  | 3 => "Thursday"
  | 4 => "Friday"
  | 5 => "Saturday"
  | _ => "Sunday"

/-- Python's `calendar.isleap`: Gregorian leap-year rule. -/
def isleap (y : Nat) : Bool :=
  y % 4 == 0 && (y % 100 != 0 || y % 400 == 0)

/-- The `calendar.mdays` table indexed by month (0 for the out-of-range
index 0; `calendar.monthrange` raises for months outside 1..12, and the
claims only concern valid months). -/
def mdays : Nat → Nat
  | 1 => 31
  | 2 => 28
  | 3 => 31
  | 4 => 30
  | 5 => 31
  | 6 => 30
  | 7 => 31
  | 8 => 31
  | 9 => 30
  | 10 => 31
  | 11 => 30
  | 12 => 31
  | _ => 0

/-- Python's `calendar.monthrange(year, month)[1]` (src/kulka.py lines 58 and 124):
`mdays[month]` plus one in a leap-year February. -/
def daysInMonth (y m : Nat) : Nat :=
  mdays m + (if m == 2 && isleap y then 1 else 0)

/-- Days in the months of `y` strictly before month `m`
(CPython's `_days_before_month`). -/
def daysBeforeMonth (y : Nat) : Nat → Nat
  | 0 => 0
  | m + 1 => daysBeforeMonth y m + daysInMonth y m

/-- Python's `datetime.date.toordinal`: the proleptic-Gregorian day number
with `date(1, 1, 1).toordinal() == 1` (CPython's `_ymd2ord`). -/
def toOrdinal (d : Date) : Nat :=
  let py := d.year - 1
  365 * py + py / 4 - py / 100 + py / 400 + daysBeforeMonth d.year d.month + d.day

/-- Python's `date.weekday()`: Monday = 0. `date(1, 1, 1)` (ordinal 1) is a
Monday, so the weekday is `(toordinal + 6) % 7`. -/
def weekday (d : Date) : Nat :=
  (toOrdinal d + 6) % 7

/-- The signed day count `(date - threshold).days` (src/kulka.py line 36). -/
def dayDelta (threshold date : Date) : Int :=
  (toOrdinal date : Int) - (toOrdinal threshold : Int)

/-- The function `get_shift` (src/kulka.py lines 28-41).  Python's `//` is floor
division (`Int.fdiv`) and its `%` is floor modulus (`Int.fmod`). -/
def get_shift (threshold : Date) (start_shift : String) (date : Date) : String :=
  let delta_days : Int := dayDelta threshold date
  let period : Int := Int.fdiv delta_days 14
  if Int.fmod period 2 = 0 then
    start_shift
  else
    if start_shift = "Day" then "Night" else "Day"

/-- The set `week_off_days = {day_map[d] for d in emp["week_offs"]}`
(src/kulka.py lines 57 and 123), as a list of weekday numbers. -/
def weekOffDays (emp : Employee) : List Nat :=
  emp.week_offs.filterMap day_map

/-- The loop of `_last_working_day` (src/kulka.py lines 62-68 and 127-133,
where the identical local function appears in both `count_shifts` and
`get_employee_calendar`).  The source decrements a `datetime.date` one day
at a time and stops as soon as the candidate's month differs from the
month of the starting date; since the predecessor of day 1 of any month
lies in a different month, the candidates examined are exactly the days
`d-1, d-2, ..., 1` of the same `(year, month)`.  The argument of the
recursion is the candidate day-of-month. -/
def lastWorkingDayAux (y m : Nat) (weekOffs : List Nat) : Nat → Option Nat
  | 0 => none
  | c + 1 =>
    if weekday ⟨y, m, c + 1⟩ ∈ weekOffs then
      lastWorkingDayAux y m weekOffs c
    else
      some (c + 1)

/-- The call `_last_working_day(date)` for `date` = day `d` of `(y, m)`: the day of
month of the nearest earlier non-off date in the same month, if any. -/
def lastWorkingDay (y m d : Nat) (weekOffs : List Nat) : Option Nat :=
  lastWorkingDayAux y m weekOffs (d - 1)

/-- The body of the loop of `count_shifts` (src/kulka.py lines 70-107),
applied to the days `1, ..., n` of `(y, m)` in ascending order, threading
the `morning` and `night` counters; `none` models the `KeyError` raised by
`raw_custom[name]` when a Day/Night employee has no anchor. -/
def countShiftsAux (emp : Employee) (y m : Nat) : Nat → Option (Nat × Nat)
  | 0 => some (0, 0)
  | n + 1 =>
    match countShiftsAux emp y m n with
    | none => none
    | some (morning, night) =>
      let d := n + 1
      let wd := weekday ⟨y, m, d⟩
      if wd ∈ weekOffDays emp then
        match lastWorkingDay y m d (weekOffDays emp) with
        | none => some (morning + 1, night)
        | some prev_work =>
          if emp.shift_type = "Day Shift Only" then
            some (morning + 1, night)
          else
            match raw_custom emp.name with
            | none => none
            | some a =>
              let prior := get_shift a.threshold a.start_shift ⟨y, m, prev_work⟩
              if prior = "Day" then some (morning + 1, night)
              else some (morning, night + 1)
      else
        if emp.shift_type = "Day Shift Only" then
          some (morning + 1, night)
        else
          match raw_custom emp.name with
          | none => none
          | some a =>
            let today_shift := get_shift a.threshold a.start_shift ⟨y, m, d⟩
            if today_shift = "Day" then some (morning + 1, night)
            else some (morning, night + 1)

/-- The function `count_shifts` (src/kulka.py lines 44-109): iterate every day of the
month, returning the Day and Night unit counters. -/
def count_shifts (emp : Employee) (year month : Nat) : Option (Nat × Nat) :=
  countShiftsAux emp year month (daysInMonth year month)

/-- Left-pad a number to two digits, as in `strftime`. -/
def pad2 (n : Nat) : String :=
  if n < 10 then "0" ++ toString n else toString n

/-- Left-pad a year to four digits, as in `strftime`. -/
def pad4 (n : Nat) : String :=
  if n < 10 then "000" ++ toString n
  else if n < 100 then "00" ++ toString n
  else if n < 1000 then "0" ++ toString n
  else toString n

/-- Python's `date.strftime("%Y-%m-%d")` (src/kulka.py lines 155, 160, 167). -/
def fmtDate (d : Date) : String :=
  pad4 d.year ++ "-" ++ pad2 d.month ++ "-" ++ pad2 d.day

/-- The body of the loop of `get_employee_calendar` (src/kulka.py lines
135-167), applied to the days `1, ..., n` of `(y, m)` in ascending order,
appending one row per day; `none` models the `KeyError` raised by
`raw_custom[name]` when a Day/Night employee has no anchor. -/
def calendarAux (emp : Employee) (y m : Nat) : Nat → Option (List DayRecord)
  | 0 => some []
  | n + 1 =>
    match calendarAux emp y m n with
    | none => none
    | some rows =>
      let d := n + 1
      let date : Date := ⟨y, m, d⟩
      let wd := weekday date
      let wd_name := day_name wd
      if wd ∈ weekOffDays emp then
        match lastWorkingDay y m d (weekOffDays emp) with
        | none => some (rows ++ [⟨fmtDate date, wd_name, "Off – (Day)"⟩])
        | some prev_work =>
          if emp.shift_type = "Day Shift Only" then
            some (rows ++ [⟨fmtDate date, wd_name, "Off – (Day)"⟩])
          else
            match raw_custom emp.name with
            | none => none
            | some a =>
              let prior := get_shift a.threshold a.start_shift ⟨y, m, prev_work⟩
              some (rows ++ [⟨fmtDate date, wd_name, "Off – (" ++ prior ++ ")"⟩])
      else
        if emp.shift_type = "Day Shift Only" then
          some (rows ++ [⟨fmtDate date, wd_name, "Day"⟩])
        else
          match raw_custom emp.name with
          | none => none
          | some a =>
            let shift_label := get_shift a.threshold a.start_shift ⟨y, m, d⟩
            some (rows ++ [⟨fmtDate date, wd_name, shift_label⟩])

/-- The function `get_employee_calendar` (src/kulka.py lines 112-169): one labelled
`DayRecord` per day of the month, in ascending date order. -/
def get_employee_calendar (emp : Employee) (year month : Nat) :
    Option (List DayRecord) :=
  calendarAux emp year month (daysInMonth year month)

/-- The per-day classification shared (textually duplicated) by
`count_shifts` and `get_employee_calendar`: the bucket ("Day" or "Night")
to which day `d` of `(y, m)` is attributed.  This is a proof-layer
factoring of the branch structure of both loops; the bridge lemmas below
show each loop body equals this classification followed by either a
counter increment or a row append. -/
def bucketOf (emp : Employee) (y m d : Nat) : Option String :=
  if weekday ⟨y, m, d⟩ ∈ weekOffDays emp then
    match lastWorkingDay y m d (weekOffDays emp) with
    | none => some "Day"
    | some prev_work =>
      if emp.shift_type = "Day Shift Only" then some "Day"
      else
        match raw_custom emp.name with
        | none => none
        | some a => some (get_shift a.threshold a.start_shift ⟨y, m, prev_work⟩)
  else
    if emp.shift_type = "Day Shift Only" then some "Day"
    else
      match raw_custom emp.name with
      | none => none
      | some a => some (get_shift a.threshold a.start_shift ⟨y, m, d⟩)

/-- The row `get_employee_calendar` appends for day `d` when the
classification bucket is `u`. -/
def rowFor (emp : Employee) (y m d : Nat) (u : String) : DayRecord :=
  ⟨fmtDate ⟨y, m, d⟩, day_name (weekday ⟨y, m, d⟩),
    if weekday ⟨y, m, d⟩ ∈ weekOffDays emp then "Off – (" ++ u ++ ")" else u⟩

/-- A well-formed employee: either Day-only, or possessing a rotation
anchor whose start shift is "Day" or "Night".  Every roster employee is
well-formed; for ill-formed ones the Python program raises `KeyError`. -/
def wf (emp : Employee) : Bool :=
  emp.shift_type == "Day Shift Only" ||
    match raw_custom emp.name with
    | some a => a.start_shift == "Day" || a.start_shift == "Night"
    | none => false

/-! ## Rotation lookup -/

/-- Rewriting `get_shift`: Python's floor division and floor modulus rewritten to
Euclidean division and modulus, which coincide for the positive divisors 14
and 2. -/
theorem get_shift_eq_ediv (t : Date) (ss : String) (d : Date) :
    get_shift t ss d =
      if (dayDelta t d / 14) % 2 = 0 then ss
      else if ss = "Day" then "Night" else "Day" := by
  unfold get_shift
  simp only [Int.fdiv_eq_ediv _ (by norm_num : (0 : Int) ≤ 14),
    Int.fmod_eq_emod _ (by norm_num : (0 : Int) ≤ 2)]

/-- C1: the rotation lookup computes the period by true mathematical floor
division of the signed day delta by 14 — the period is the unique integer
`q` with `14*q ≤ delta < 14*q + 14` — returns `start_shift` for an even
period and the Day↔Night opposite for an odd one, and in particular
returns `start_shift` at the threshold itself. -/
theorem shift_floor_parity (t : Date) (ss : String) (d : Date) :
    (∃ q : Int, 14 * q ≤ dayDelta t d ∧ dayDelta t d < 14 * q + 14 ∧
      get_shift t ss d =
        (if q % 2 = 0 then ss else if ss = "Day" then "Night" else "Day")) ∧
    get_shift t ss t = ss := by
  constructor
  · refine ⟨dayDelta t d / 14, ?_, ?_, ?_⟩
    · omega
    · omega
    · rw [get_shift_eq_ediv]
  · rw [get_shift_eq_ediv]
    have h0 : dayDelta t t = 0 := by unfold dayDelta; omega
    rw [h0]
    norm_num

/-- C2 counterexample: 2025-06-11 lies exactly 14 days after 2025-05-28,
yet `get_shift` answers differently on the two dates for the anchor
`{threshold 2025-05-28, start_shift "Night"}` — the lookup is not
14-day periodic. -/
theorem shift_not_14_periodic :
    toOrdinal ⟨2025, 6, 11⟩ = toOrdinal ⟨2025, 5, 28⟩ + 14 ∧
    get_shift ⟨2025, 5, 28⟩ "Night" ⟨2025, 6, 11⟩ ≠
      get_shift ⟨2025, 5, 28⟩ "Night" ⟨2025, 5, 28⟩ := by decide

/-- C2 (amended): the rotation lookup is 28-day periodic: dates exactly 28
days apart receive the same shift (14 days apart gives the opposite
shift, so the full period of the alternation is 28 days). -/
theorem shift_28_periodic (t : Date) (ss : String) (d e : Date)
    (h : toOrdinal e = toOrdinal d + 28) :
    get_shift t ss e = get_shift t ss d := by
  rw [get_shift_eq_ediv, get_shift_eq_ediv]
  have hd : dayDelta t e = dayDelta t d + 28 := by
    unfold dayDelta
    omega
  have h2 : (dayDelta t e / 14) % 2 = (dayDelta t d / 14) % 2 := by
    omega
  rw [h2]

/-- Witness for the amended C2 at the concrete pair 2025-05-28 and
2025-06-25. -/
theorem shift_28_periodic_witness :
    toOrdinal ⟨2025, 6, 25⟩ = toOrdinal ⟨2025, 5, 28⟩ + 28 ∧
    get_shift ⟨2025, 5, 28⟩ "Night" ⟨2025, 6, 25⟩ =
      get_shift ⟨2025, 5, 28⟩ "Night" ⟨2025, 5, 28⟩ :=
  ⟨by decide, shift_28_periodic _ _ _ _ (by decide)⟩

/-- C3 counterexample: 2025-05-14 lies exactly 14 days strictly before the
threshold 2025-05-28, yet `get_shift` returns "Day", not the start shift
"Night" — the period there is -1, which is odd. -/
theorem shift_before_anchor_cex :
    toOrdinal ⟨2025, 5, 14⟩ + 14 * 1 = toOrdinal ⟨2025, 5, 28⟩ ∧
    get_shift ⟨2025, 5, 28⟩ "Night" ⟨2025, 5, 14⟩ ≠ "Night" := by decide

/-- C3 (amended): the date exactly `14*k` days strictly before the
threshold yields `start_shift` when `k` is even and the opposite shift
when `k` is odd (the period there is `-k`). -/
theorem shift_before_anchor_parity (t : Date) (ss : String) (d : Date) (k : Nat)
    (_hk : 1 ≤ k) (h : toOrdinal d + 14 * k = toOrdinal t) :
    get_shift t ss d =
      if k % 2 = 0 then ss else if ss = "Day" then "Night" else "Day" := by
  rw [get_shift_eq_ediv]
  have hd : dayDelta t d = -(14 * (k : Int)) := by
    unfold dayDelta
    omega
  by_cases hk2 : k % 2 = 0
  · have hz : (dayDelta t d / 14) % 2 = 0 := by omega
    simp [hz, hk2]
  · have hz : ¬ (dayDelta t d / 14) % 2 = 0 := by omega
    simp [hz, hk2]

/-- Witness for the amended C3 with `k = 2` at 2025-04-30, 28 days before
the threshold 2025-05-28. -/
theorem shift_before_anchor_parity_witness :
    1 ≤ 2 ∧ toOrdinal ⟨2025, 4, 30⟩ + 14 * 2 = toOrdinal ⟨2025, 5, 28⟩ ∧
    get_shift ⟨2025, 5, 28⟩ "Night" ⟨2025, 4, 30⟩ =
      (if 2 % 2 = 0 then "Night" else if "Night" = "Day" then "Night" else "Day") :=
  ⟨by decide, by decide, shift_before_anchor_parity _ "Night" _ 2 (by decide) (by decide)⟩

/-- C8: for the anchor of employee "Sundar" — threshold 2025-05-28, start
shift "Night" — the lookup returns "Night" on 2025-05-28 and "Day" on
2025-06-11. -/
theorem sundar_shift_values :
    raw_custom "Sundar" = some ⟨⟨2025, 5, 28⟩, "Night"⟩ ∧
    get_shift ⟨2025, 5, 28⟩ "Night" ⟨2025, 5, 28⟩ = "Night" ∧
    get_shift ⟨2025, 5, 28⟩ "Night" ⟨2025, 6, 11⟩ = "Day" := by decide

/-! ## Bridging the two month loops to the per-day classification -/

/-- One step of the `count_shifts` loop is the per-day classification
followed by an increment of the matching counter. -/
theorem countShiftsAux_succ (emp : Employee) (y m n : Nat) :
    countShiftsAux emp y m (n + 1) =
      (countShiftsAux emp y m n).bind (fun p =>
        (bucketOf emp y m (n + 1)).map (fun u =>
          if u = "Day" then (p.1 + 1, p.2) else (p.1, p.2 + 1))) := by
  cases hprev : countShiftsAux emp y m n with
  | none => simp [countShiftsAux, hprev]
  | some p =>
    obtain ⟨mo, ni⟩ := p
    by_cases hoff : weekday ⟨y, m, n + 1⟩ ∈ weekOffDays emp
    · cases hlw : lastWorkingDay y m (n + 1) (weekOffDays emp) with
      | none => simp [countShiftsAux, hprev, bucketOf, hoff, hlw]
      | some pw =>
        by_cases hty : emp.shift_type = "Day Shift Only"
        · simp [countShiftsAux, hprev, bucketOf, hoff, hlw, hty]
        · cases hrc : raw_custom emp.name with
          | none => simp [countShiftsAux, hprev, bucketOf, hoff, hlw, hty, hrc]
          | some a =>
            simp only [countShiftsAux, hprev, bucketOf, hoff, hlw, hty, hrc,
              if_true, if_false, ite_true, ite_false, if_neg, Option.bind_some,
              Option.map_some, reduceIte]
            split <;> simp_all
    · by_cases hty : emp.shift_type = "Day Shift Only"
      · simp [countShiftsAux, hprev, bucketOf, hoff, hty]
      · cases hrc : raw_custom emp.name with
        | none => simp [countShiftsAux, hprev, bucketOf, hoff, hty, hrc]
        | some a =>
          simp only [countShiftsAux, hprev, bucketOf, hoff, hty, hrc,
            if_true, if_false, ite_true, ite_false, if_neg, Option.bind_some,
            Option.map_some, reduceIte]
          split <;> simp_all

/-- One step of the `get_employee_calendar` loop is the per-day
classification followed by appending the corresponding row. -/
theorem calendarAux_succ (emp : Employee) (y m n : Nat) :
    calendarAux emp y m (n + 1) =
      (calendarAux emp y m n).bind (fun rows =>
        (bucketOf emp y m (n + 1)).map (fun u =>
          rows ++ [rowFor emp y m (n + 1) u])) := by
  cases hprev : calendarAux emp y m n with
  | none => simp [calendarAux, hprev]
  | some rows =>
    by_cases hoff : weekday ⟨y, m, n + 1⟩ ∈ weekOffDays emp
    · cases hlw : lastWorkingDay y m (n + 1) (weekOffDays emp) with
      | none => simp [calendarAux, hprev, bucketOf, rowFor, hoff, hlw]
      | some pw =>
        by_cases hty : emp.shift_type = "Day Shift Only"
        · simp [calendarAux, hprev, bucketOf, rowFor, hoff, hlw, hty]
        · cases hrc : raw_custom emp.name with
          | none => simp [calendarAux, hprev, bucketOf, rowFor, hoff, hlw, hty, hrc]
          | some a => simp [calendarAux, hprev, bucketOf, rowFor, hoff, hlw, hty, hrc]
    · by_cases hty : emp.shift_type = "Day Shift Only"
      · simp [calendarAux, hprev, bucketOf, rowFor, hoff, hty]
      · cases hrc : raw_custom emp.name with
        | none => simp [calendarAux, hprev, bucketOf, rowFor, hoff, hty, hrc]
        | some a => simp [calendarAux, hprev, bucketOf, rowFor, hoff, hty, hrc]

/-- The lookup `get_shift` returns "Day" or "Night" whenever the start shift is one
of the two. -/
theorem get_shift_day_or_night (t : Date) (ss : String) (d : Date)
    (h : ss = "Day" ∨ ss = "Night") :
    get_shift t ss d = "Day" ∨ get_shift t ss d = "Night" := by
  rw [get_shift_eq_ediv]
  rcases h with h | h <;> subst h <;> split <;> simp

/-- A well-formed employee's shift type or anchor data, in propositional
form. -/
theorem wf_cases (emp : Employee) (hwf : wf emp = true) :
    emp.shift_type = "Day Shift Only" ∨
      ∃ a, raw_custom emp.name = some a ∧
        (a.start_shift = "Day" ∨ a.start_shift = "Night") := by
  unfold wf at hwf
  cases hrc : raw_custom emp.name with
  | none =>
    rw [hrc] at hwf
    simp at hwf
    exact Or.inl hwf
  | some a =>
    rw [hrc] at hwf
    simp at hwf
    rcases hwf with h | h
    · exact Or.inl h
    · exact Or.inr ⟨a, rfl, h⟩

/-- For a well-formed employee the per-day classification always succeeds
and lands in {"Day", "Night"}. -/
theorem bucketOf_wf (emp : Employee) (hwf : wf emp = true) (y m d : Nat) :
    ∃ u, bucketOf emp y m d = some u ∧ (u = "Day" ∨ u = "Night") := by
  have hcase := wf_cases emp hwf
  by_cases hoff : weekday ⟨y, m, d⟩ ∈ weekOffDays emp
  · cases hlw : lastWorkingDay y m d (weekOffDays emp) with
    | none => exact ⟨"Day", by simp [bucketOf, hoff, hlw], Or.inl rfl⟩
    | some pw =>
      by_cases hty : emp.shift_type = "Day Shift Only"
      · exact ⟨"Day", by simp [bucketOf, hoff, hlw, hty], Or.inl rfl⟩
      · rcases hcase with h | ⟨a, hrc, hss⟩
        · exact absurd h hty
        · refine ⟨get_shift a.threshold a.start_shift ⟨y, m, pw⟩,
            by simp [bucketOf, hoff, hlw, hty, hrc], ?_⟩
          exact get_shift_day_or_night _ _ _ hss
  · by_cases hty : emp.shift_type = "Day Shift Only"
    · exact ⟨"Day", by simp [bucketOf, hoff, hty], Or.inl rfl⟩
    · rcases hcase with h | ⟨a, hrc, hss⟩
      · exact absurd h hty
      · refine ⟨get_shift a.threshold a.start_shift ⟨y, m, d⟩,
          by simp [bucketOf, hoff, hty, hrc], ?_⟩
        exact get_shift_day_or_night _ _ _ hss

/-- Rows whose label embeds Day: working "Day" rows and off rows resolved
to Day. -/
def isDayRow (r : DayRecord) : Bool :=
  r.shift == "Day" || r.shift == "Off – (Day)"

/-- Rows whose label embeds Night: working "Night" rows and off rows
resolved to Night. -/
def isNightRow (r : DayRecord) : Bool :=
  r.shift == "Night" || r.shift == "Off – (Night)"

/-- The row appended for bucket `u` embeds Day exactly when `u` is "Day",
and Night exactly when `u` is "Night". -/
theorem rowFor_embeds (emp : Employee) (y m d : Nat) (u : String)
    (hu : u = "Day" ∨ u = "Night") :
    isDayRow (rowFor emp y m d u) = (u == "Day") ∧
    isNightRow (rowFor emp y m d u) = (u == "Night") := by
  rcases hu with h | h <;> subst h <;>
    by_cases hoff : weekday ⟨y, m, d⟩ ∈ weekOffDays emp <;>
      simp [isDayRow, isNightRow, rowFor, hoff]

/-- Master invariant of the two month loops: after processing days
`1, ..., n`, the counters of `count_shifts` are defined, sum to `n`, and
count exactly the calendar rows embedding Day resp. Night; the calendar
has one row per processed day, at index `i` the row for day `i+1`. -/
theorem count_cal_master (emp : Employee) (hwf : wf emp = true) (y m : Nat) :
    ∀ n, ∃ mo ni rows, countShiftsAux emp y m n = some (mo, ni) ∧
      calendarAux emp y m n = some rows ∧
      rows.length = n ∧ mo + ni = n ∧
      mo = rows.countP isDayRow ∧ ni = rows.countP isNightRow ∧
      ∀ i, i < n → ∃ u, bucketOf emp y m (i + 1) = some u ∧
        (u = "Day" ∨ u = "Night") ∧ rows[i]? = some (rowFor emp y m (i + 1) u)
  | 0 => ⟨0, 0, [], rfl, rfl, rfl, rfl, rfl, rfl, fun i hi => absurd hi (Nat.not_lt_zero i)⟩
  | n + 1 => by
    obtain ⟨mo, ni, rows, hcount, hcal, hlen, hsum, hmo, hni, hrow⟩ :=
      count_cal_master emp hwf y m n
    obtain ⟨u, hu, huDN⟩ := bucketOf_wf emp hwf y m (n + 1)
    have hembed := rowFor_embeds emp y m (n + 1) u huDN
    refine ⟨if u = "Day" then mo + 1 else mo, if u = "Day" then ni else ni + 1,
      rows ++ [rowFor emp y m (n + 1) u], ?_, ?_, ?_, ?_, ?_, ?_, ?_⟩
    · rw [countShiftsAux_succ, hcount, hu]
      by_cases hD : u = "Day" <;> simp [hD]
    · rw [calendarAux_succ, hcal, hu]
      rfl
    · simp [hlen]
    · split <;> omega
    · rw [List.countP_append, ← hmo, List.countP_cons, List.countP_nil, hembed.1]
      rcases huDN with h | h <;> subst h <;> simp
    · rw [List.countP_append, ← hni, List.countP_cons, List.countP_nil, hembed.2]
      rcases huDN with h | h <;> subst h <;> simp
    · intro i hi
      rcases Nat.lt_succ_iff_lt_or_eq.mp hi with hi2 | hi2
      · obtain ⟨v, hv, hvDN, hvrow⟩ := hrow i hi2
        refine ⟨v, hv, hvDN, ?_⟩
        rw [List.getElem?_append_left (by omega), hvrow]
      · subst hi2
        refine ⟨u, hu, huDN, ?_⟩
        rw [← hlen, List.getElem?_concat_length]

/-! ## The backward scan: characterisation and step bound -/

/-- If the scan fails, every day of the month strictly before the start is
an off day. -/
theorem lastWorkingDayAux_none (y m : Nat) (offs : List Nat) :
    ∀ n, lastWorkingDayAux y m offs n = none →
      ∀ c, 1 ≤ c → c ≤ n → weekday ⟨y, m, c⟩ ∈ offs
  | 0, _, _, hc1, hc2 => by omega
  | n + 1, h, c, hc1, hc2 => by
    unfold lastWorkingDayAux at h
    by_cases hoff : weekday ⟨y, m, n + 1⟩ ∈ offs
    · rw [if_pos hoff] at h
      rcases Nat.lt_succ_iff_lt_or_eq.mp (Nat.lt_succ_of_le hc2) with h2 | h2
      · exact lastWorkingDayAux_none y m offs n h c hc1 (by omega)
      · rw [h2]
        exact hoff
    · rw [if_neg hoff] at h
      cases h

/-- If the scan answers day `c`, then `c` is a working day of the month,
lies in the scanned range, and every later scanned day is an off day —
i.e. `c` is the nearest earlier working day. -/
theorem lastWorkingDayAux_some (y m : Nat) (offs : List Nat) :
    ∀ n c, lastWorkingDayAux y m offs n = some c →
      1 ≤ c ∧ c ≤ n ∧ weekday ⟨y, m, c⟩ ∉ offs ∧
        ∀ e, c < e → e ≤ n → weekday ⟨y, m, e⟩ ∈ offs
  | 0, c, h => by cases h
  | n + 1, c, h => by
    unfold lastWorkingDayAux at h
    by_cases hoff : weekday ⟨y, m, n + 1⟩ ∈ offs
    · rw [if_pos hoff] at h
      obtain ⟨h1, h2, h3, h4⟩ := lastWorkingDayAux_some y m offs n c h
      refine ⟨h1, by omega, h3, ?_⟩
      intro e he1 he2
      rcases Nat.lt_succ_iff_lt_or_eq.mp (Nat.lt_succ_of_le he2) with h5 | h5
      · exact h4 e he1 (by omega)
      · rw [h5]
        exact hoff
    · rw [if_neg hoff] at h
      have hc : c = n + 1 := (Option.some.inj h).symm
      subst hc
      exact ⟨by omega, Nat.le_refl _, hoff, fun e he1 he2 => by omega⟩

/-- The number of iterations the while loop of `_last_working_day`
performs, mirroring `lastWorkingDayAux` step for step: an off candidate
costs one iteration and continues, a working candidate costs one final
iteration, and leaving the month (candidate day 0) stops the loop.  The
scan itself is structurally recursive on the candidate day, hence total. -/
def lastWorkingDaySteps (y m : Nat) (weekOffs : List Nat) : Nat → Nat
  | 0 => 0
  | c + 1 =>
    if weekday ⟨y, m, c + 1⟩ ∈ weekOffs then 1 + lastWorkingDaySteps y m weekOffs c
    else 1

/-- The scan starting below day `n + 1` performs at most `n` iterations. -/
theorem lastWorkingDaySteps_le (y m : Nat) (offs : List Nat) :
    ∀ n, lastWorkingDaySteps y m offs n ≤ n
  | 0 => Nat.le_refl 0
  | n + 1 => by
    unfold lastWorkingDaySteps
    split
    · have := lastWorkingDaySteps_le y m offs n
      omega
    · omega

/-- C9: for every date `d` of a month the backward scan for the prior
working day terminates (it is structurally recursive on the candidate
day-of-month, which each iteration decreases by one until it leaves the
month), and performs at most `days_in_month - 1` iterations. -/
theorem scan_steps_bound (y m d : Nat) (offs : List Nat)
    (h1 : 1 ≤ d) (h2 : d ≤ daysInMonth y m) :
    lastWorkingDaySteps y m offs (d - 1) ≤ daysInMonth y m - 1 := by
  have := lastWorkingDaySteps_le y m offs (d - 1)
  omega

/-- Witness for C9: scanning back from 2025-05-31 for an employee with
Monday and Tuesday off takes at most 30 steps. -/
theorem scan_steps_bound_witness :
    lastWorkingDaySteps 2025 5 [0, 1] (31 - 1) ≤ daysInMonth 2025 5 - 1 :=
  scan_steps_bound 2025 5 31 [0, 1] (by decide) (by decide)

/-! ## Claim theorems on the month loops -/

/-- Every roster employee is well-formed. -/
theorem wf_of_mem (emp : Employee) (hmem : emp ∈ employees) : wf emp = true := by
  have h : ∀ e ∈ employees, wf e = true := by decide
  exact h emp hmem

/-- C4: for every roster employee and valid month the aggregation is
defined and returns two (non-negative, being naturals) counters summing
to the number of days of the month. -/
theorem count_shifts_total (emp : Employee) (hmem : emp ∈ employees) (y m : Nat)
    (_hy : 1 ≤ y) (_hm1 : 1 ≤ m) (_hm2 : m ≤ 12) :
    ∃ mo ni, count_shifts emp y m = some (mo, ni) ∧ mo + ni = daysInMonth y m := by
  obtain ⟨mo, ni, rows, hcount, _, _, hsum, _⟩ :=
    count_cal_master emp (wf_of_mem emp hmem) y m (daysInMonth y m)
  exact ⟨mo, ni, hcount, hsum⟩

/-- Witness for C4 at employee "Sundar", May 2025. -/
theorem count_shifts_total_witness :
    ∃ mo ni, count_shifts ⟨"Sundar", "Day/Night Shift", ["Monday", "Tuesday"]⟩ 2025 5 =
      some (mo, ni) ∧ mo + ni = daysInMonth 2025 5 :=
  count_shifts_total _ (by decide) 2025 5 (by decide) (by decide) (by decide)

/-- C6: for every roster employee and valid month the calendar is defined,
has exactly `daysInMonth` records, and its `i`-th record carries the
formatted date of day `i + 1` — one record per calendar date, in strictly
increasing date order. -/
theorem calendar_one_record_per_day (emp : Employee) (hmem : emp ∈ employees)
    (y m : Nat) (_hy : 1 ≤ y) (_hm1 : 1 ≤ m) (_hm2 : m ≤ 12) :
    ∃ rows, get_employee_calendar emp y m = some rows ∧
      rows.length = daysInMonth y m ∧
      ∀ i, i < rows.length →
        rows[i]?.map DayRecord.date = some (fmtDate ⟨y, m, i + 1⟩) := by
  obtain ⟨mo, ni, rows, _, hcal, hlen, _, _, _, hrow⟩ :=
    count_cal_master emp (wf_of_mem emp hmem) y m (daysInMonth y m)
  refine ⟨rows, hcal, hlen, ?_⟩
  intro i hi
  obtain ⟨u, _, _, hvrow⟩ := hrow i (by omega)
  rw [hvrow]
  rfl

/-- Witness for C6 at employee "Sundar", May 2025. -/
theorem calendar_one_record_per_day_witness :
    ∃ rows, get_employee_calendar ⟨"Sundar", "Day/Night Shift", ["Monday", "Tuesday"]⟩
        2025 5 = some rows ∧
      rows.length = daysInMonth 2025 5 ∧
      ∀ i, i < rows.length →
        rows[i]?.map DayRecord.date = some (fmtDate ⟨2025, 5, i + 1⟩) :=
  calendar_one_record_per_day _ (by decide) 2025 5 (by decide) (by decide) (by decide)

/-- C7 counterexample: in Durgeshini's May 2025 calendar some record's
label is none of the four strings the claim allows — the off-day labels
actually read "Off – (Day)" (en dash, spaces), not "Off-(Day)". -/
theorem calendar_label_format_cex :
    ¬ ∀ r ∈ (get_employee_calendar ⟨"Durgeshini", "Day Shift Only", ["Friday"]⟩
        2025 5).getD [],
      r.shift = "Day" ∨ r.shift = "Night" ∨
        r.shift = "Off-(Day)" ∨ r.shift = "Off-(Night)" := by
  decide

/-- C7 (amended): every off-day record's label is exactly "Off – (Day)" or
"Off – (Night)" (the source writes an en dash surrounded by spaces), and
every working-day record's label is the bare "Day" or "Night" — always
"Day" for a Day-only employee. -/
theorem calendar_label_format (emp : Employee) (hmem : emp ∈ employees)
    (y m : Nat) (_hy : 1 ≤ y) (_hm1 : 1 ≤ m) (_hm2 : m ≤ 12) :
    ∃ rows, get_employee_calendar emp y m = some rows ∧
      ∀ i, i < rows.length → ∃ r, rows[i]? = some r ∧
        (if weekday ⟨y, m, i + 1⟩ ∈ weekOffDays emp then
          r.shift = "Off – (Day)" ∨ r.shift = "Off – (Night)"
        else
          (r.shift = "Day" ∨ r.shift = "Night") ∧
            (emp.shift_type = "Day Shift Only" → r.shift = "Day")) := by
  obtain ⟨mo, ni, rows, _, hcal, hlen, _, _, _, hrow⟩ :=
    count_cal_master emp (wf_of_mem emp hmem) y m (daysInMonth y m)
  refine ⟨rows, hcal, ?_⟩
  intro i hi
  obtain ⟨u, hu, huDN, hvrow⟩ := hrow i (by omega)
  refine ⟨rowFor emp y m (i + 1) u, hvrow, ?_⟩
  by_cases hoff : weekday ⟨y, m, i + 1⟩ ∈ weekOffDays emp
  · rw [if_pos hoff]
    rcases huDN with h | h <;> subst h <;> simp [rowFor, hoff]
  · rw [if_neg hoff]
    constructor
    · rcases huDN with h | h <;> subst h <;> simp [rowFor, hoff]
    · intro hty
      have hb : bucketOf emp y m (i + 1) = some "Day" := by
        simp [bucketOf, hoff, hty]
      rw [hb] at hu
      have huD : u = "Day" := (Option.some.inj hu).symm
      subst huD
      simp [rowFor, hoff]

/-- Witness for the amended C7 at employee "Durgeshini", May 2025. -/
theorem calendar_label_format_witness :
    ∃ rows, get_employee_calendar ⟨"Durgeshini", "Day Shift Only", ["Friday"]⟩
        2025 5 = some rows ∧
      ∀ i, i < rows.length → ∃ r, rows[i]? = some r ∧
        (if weekday ⟨2025, 5, i + 1⟩ ∈
            weekOffDays ⟨"Durgeshini", "Day Shift Only", ["Friday"]⟩ then
          r.shift = "Off – (Day)" ∨ r.shift = "Off – (Night)"
        else
          (r.shift = "Day" ∨ r.shift = "Night") ∧
            (("Durgeshini" : String) = "Durgeshini" → r.shift = "Day")) := by
  obtain ⟨rows, h1, h2⟩ :=
    calendar_label_format ⟨"Durgeshini", "Day Shift Only", ["Friday"]⟩ (by decide)
      2025 5 (by decide) (by decide) (by decide)
  refine ⟨rows, h1, ?_⟩
  intro i hi
  obtain ⟨r, hr1, hr2⟩ := h2 i hi
  refine ⟨r, hr1, ?_⟩
  by_cases hoff : weekday ⟨2025, 5, i + 1⟩ ∈
      weekOffDays ⟨"Durgeshini", "Day Shift Only", ["Friday"]⟩
  · rw [if_pos hoff]
    rw [if_pos hoff] at hr2
    exact hr2
  · rw [if_neg hoff]
    rw [if_neg hoff] at hr2
    exact ⟨hr2.1, fun _ => hr2.2 rfl⟩

/-- C10: for every roster employee and valid month, the Day counter of
`count_shifts` equals the number of calendar rows whose label embeds Day
(working "Day" rows plus off rows resolved to Day), and likewise for
Night. -/
theorem counts_match_calendar (emp : Employee) (hmem : emp ∈ employees)
    (y m : Nat) (_hy : 1 ≤ y) (_hm1 : 1 ≤ m) (_hm2 : m ≤ 12) :
    ∃ mo ni rows, count_shifts emp y m = some (mo, ni) ∧
      get_employee_calendar emp y m = some rows ∧
      mo = rows.countP isDayRow ∧ ni = rows.countP isNightRow := by
  obtain ⟨mo, ni, rows, hcount, hcal, _, _, hmo, hni, _⟩ :=
    count_cal_master emp (wf_of_mem emp hmem) y m (daysInMonth y m)
  exact ⟨mo, ni, rows, hcount, hcal, hmo, hni⟩

/-- Witness for C10 at employee "Sundar", May 2025. -/
theorem counts_match_calendar_witness :
    ∃ mo ni rows,
      count_shifts ⟨"Sundar", "Day/Night Shift", ["Monday", "Tuesday"]⟩ 2025 5 =
        some (mo, ni) ∧
      get_employee_calendar ⟨"Sundar", "Day/Night Shift", ["Monday", "Tuesday"]⟩
        2025 5 = some rows ∧
      mo = rows.countP isDayRow ∧ ni = rows.countP isNightRow :=
  counts_match_calendar _ (by decide) 2025 5 (by decide) (by decide) (by decide)

/-- C5: the shift embedded in an off-day's calendar label (and its unit
classification `bucketOf`, which by `countShiftsAux_succ` is exactly what
`count_shifts` tallies) is the shift of the nearest strictly earlier day
of the same month whose weekday is not among the employee's week offs —
computed by `get_shift` from the employee's anchor for Day/Night
employees and trivially "Day" for Day-only ones — and defaults to "Day"
when every earlier day of the month is an off day. -/
theorem off_day_prior_shift (emp : Employee) (hmem : emp ∈ employees)
    (y m d : Nat) (_hy : 1 ≤ y) (_hm1 : 1 ≤ m) (_hm2 : m ≤ 12)
    (hd1 : 1 ≤ d) (hd2 : d ≤ daysInMonth y m)
    (hoff : weekday ⟨y, m, d⟩ ∈ weekOffDays emp) :
    ∃ rows s, get_employee_calendar emp y m = some rows ∧
      bucketOf emp y m d = some s ∧
      rows[d - 1]?.map DayRecord.shift = some ("Off – (" ++ s ++ ")") ∧
      (((∀ c, 1 ≤ c → c < d → weekday ⟨y, m, c⟩ ∈ weekOffDays emp) ∧ s = "Day") ∨
        (∃ c, 1 ≤ c ∧ c < d ∧ weekday ⟨y, m, c⟩ ∉ weekOffDays emp ∧
          (∀ e, c < e → e < d → weekday ⟨y, m, e⟩ ∈ weekOffDays emp) ∧
          s = (if emp.shift_type = "Day Shift Only" then "Day"
               else match raw_custom emp.name with
                    | some a => get_shift a.threshold a.start_shift ⟨y, m, c⟩
                    | none => "Day"))) := by
  obtain ⟨mo, ni, rows, _, hcal, hlen, _, _, _, hrow⟩ :=
    count_cal_master emp (wf_of_mem emp hmem) y m (daysInMonth y m)
  obtain ⟨u, hu, huDN, hvrow⟩ := hrow (d - 1) (by omega)
  have hd' : d - 1 + 1 = d := by omega
  rw [hd'] at hu hvrow
  refine ⟨rows, u, hcal, hu, ?_, ?_⟩
  · rw [hvrow]
    simp [rowFor, hoff]
  · cases hlw : lastWorkingDay y m d (weekOffDays emp) with
    | none =>
      have hb : bucketOf emp y m d = some "Day" := by
        simp [bucketOf, hoff, hlw]
      rw [hb] at hu
      have huD : u = "Day" := (Option.some.inj hu).symm
      left
      refine ⟨?_, huD⟩
      intro c hc1 hc2
      exact lastWorkingDayAux_none y m (weekOffDays emp) (d - 1) hlw c hc1 (by omega)
    | some pw =>
      obtain ⟨h1, h2, h3, h4⟩ := lastWorkingDayAux_some y m (weekOffDays emp) (d - 1) pw hlw
      right
      by_cases hty : emp.shift_type = "Day Shift Only"
      · have hb : bucketOf emp y m d = some "Day" := by
          simp [bucketOf, hoff, hlw, hty]
        rw [hb] at hu
        have huD : u = "Day" := (Option.some.inj hu).symm
        refine ⟨pw, h1, by omega, h3, fun e he1 he2 => h4 e he1 (by omega), ?_⟩
        rw [if_pos hty, huD]
      · cases hrc : raw_custom emp.name with
        | none =>
          have hb : bucketOf emp y m d = none := by
            simp [bucketOf, hoff, hlw, hty, hrc]
          rw [hb] at hu
          cases hu
        | some a =>
          have hb : bucketOf emp y m d =
              some (get_shift a.threshold a.start_shift ⟨y, m, pw⟩) := by
            simp [bucketOf, hoff, hlw, hty, hrc]
          rw [hb] at hu
          have huD : u = get_shift a.threshold a.start_shift ⟨y, m, pw⟩ :=
            (Option.some.inj hu).symm
          refine ⟨pw, h1, by omega, h3, fun e he1 he2 => h4 e he1 (by omega), ?_⟩
          rw [if_neg hty]
          exact huD

/-- Witness for C5 at employee "Sundar", 2025-05-05 (a Monday off day). -/
theorem off_day_prior_shift_witness :
    ∃ rows s,
      get_employee_calendar ⟨"Sundar", "Day/Night Shift", ["Monday", "Tuesday"]⟩
        2025 5 = some rows ∧
      bucketOf ⟨"Sundar", "Day/Night Shift", ["Monday", "Tuesday"]⟩ 2025 5 5 = some s ∧
      rows[5 - 1]?.map DayRecord.shift = some ("Off – (" ++ s ++ ")") ∧
      (((∀ c, 1 ≤ c → c < 5 → weekday ⟨2025, 5, c⟩ ∈
          weekOffDays ⟨"Sundar", "Day/Night Shift", ["Monday", "Tuesday"]⟩) ∧
          s = "Day") ∨
        (∃ c, 1 ≤ c ∧ c < 5 ∧ weekday ⟨2025, 5, c⟩ ∉
            weekOffDays ⟨"Sundar", "Day/Night Shift", ["Monday", "Tuesday"]⟩ ∧
          (∀ e, c < e → e < 5 → weekday ⟨2025, 5, e⟩ ∈
            weekOffDays ⟨"Sundar", "Day/Night Shift", ["Monday", "Tuesday"]⟩) ∧
          s = (if ("Day/Night Shift" : String) = "Day Shift Only" then "Day"
               else match raw_custom "Sundar" with
                    | some a => get_shift a.threshold a.start_shift ⟨2025, 5, c⟩
                    | none => "Day"))) :=
  off_day_prior_shift _ (by decide) 2025 5 5 (by decide) (by decide) (by decide)
    (by decide) (by decide) (by decide)

end Kulka
